import Mathlib

/-!
Verification of the command-argument-collection and dispatch pipeline of the
`discord-untitled` command framework.

The development is a shallow embedding of the TypeScript source:

* `obtainLoop`, `infInner`, `infOuter`, `obtain` embed
  `BaseArgument.obtain` / `BaseArgument.obtainInfinite`
  (src/commands/BaseArgument.ts).  The transport layer is modelled by a
  list of replies, each `Option String` (`none` = the reply window elapsed
  with no message); prompts and answers are counted rather than carrying
  the message objects.
* `collectLoop` / `collectorObtain` embed `BaseArgumentCollector.obtain`,
  and `collectorValidateArgs` its constructor-time validation loop.
* `integerValidate` / `parseIntJS` and `floatValidate` / `parseFloatJS`
  embed `IntegerArgumentType` and `FloatArgumentType`; JS doubles are
  idealised as exact rationals and exact integers (IEEE rounding and the
  `Infinity` literal are outside the model).
* `findCommands` embeds `CommandRegistry.findCommands` together with its
  filter helpers (src/client/Registry.ts).
* `throttleFn` / `messageRun` embed `BaseCommand.throttle`,
  `BaseCommand.setEnabledIn` / `isEnabledIn` and the dispatch sequence of
  `BaseMessage.run`.
-/

namespace Untitled

/-! ### JS primitives -/

/-- `String.prototype.toLowerCase` (characterwise lowercasing). -/
def jsToLower (s : String) : String := ⟨s.data.map Char.toLower⟩

/-- Infix test on character lists (helper for `jsIncludes`). -/
def listInfix (needle : List Char) : List Char → Bool
  | [] => needle.isEmpty
  | c :: cs => needle.isPrefixOf (c :: cs) || listInfix needle cs

/-- `String.prototype.includes` (substring test): `jsIncludes s sub` is
`s.includes(sub)`. -/
def jsIncludes (s sub : String) : Bool := listInfix sub.data s.data

/-! ### Argument results (src/types, `ArgumentResult`) -/

/-- The `cancelled` tags of an `ArgumentResult`:
`'user' | 'time' | 'promptLimit'`. -/
inductive CancelReason
  | user
  | time
  | promptLimit
  deriving DecidableEq

/-- An argument value as stored in `ArgumentResult.values`: the single-value
loop produces one parsed value, the infinite loop a list of them. -/
inductive Vals (V : Type)
  | one (v : V)
  | many (vs : List V)
  deriving DecidableEq

/-- `ArgumentResult`: `values` is `null` (`none`) on cancellation; `prompts`
and `answers` count the prompt messages issued and the reply messages
recorded (the source keeps the `Message` objects themselves). -/
structure ObtainResult (V : Type) where
  values : Option (Vals V)
  cancelled : Option CancelReason
  prompts : Nat
  answers : Nat
  deriving DecidableEq

/-- Outcome of a validator call: JS `true`, a falsy value, or a string
(a specific invalidity message). -/
inductive ValidRes
  | valid
  | invalid
  | msg (s : String)
  deriving DecidableEq

/-- The loop guard `!valid || typeof valid === 'string'` negated: only a
truthy non-string validator outcome counts as accepted. -/
def isAccepted : ValidRes → Bool
  | .valid => true
  | .invalid => false
  | .msg _ => false

/-- The validator/parser pair an argument uses: either its type's
`validate`/`parse` or the custom `validate`/`parse` functions of the
descriptor — both have this shape. -/
structure ArgEnv (V : Type) where
  validate : String → ValidRes
  parse : String → V

/-- The raw `value` parameter of `BaseArgument.obtain`: `undefined`, a
string (possibly empty), or — for the infinite argument — the array
`provided.slice(i)` passed by the collector. -/
inductive RawVal
  | undef
  | one (s : String)
  | many (xs : List String)
  deriving DecidableEq

/-- JS truthiness of the raw value (`!value`): `undefined` and `""` are
falsy; an array (even an empty one) is truthy. -/
def RawVal.falsy : RawVal → Bool
  | .undef => true
  | .one s => s.isEmpty
  | .many _ => false

/-- `prompts.length >= promptLimit` with `promptLimit` possibly `Infinity`
(`none`). -/
def limitReached : Option Nat → Nat → Bool
  | none, _ => false
  | some l, n => decide (l ≤ n)

/-- `attempts > promptLimit` with `promptLimit` possibly `Infinity`
(`none`). -/
def exceedsLimit : Option Nat → Nat → Bool
  | none, _ => false
  | some l, n => decide (l < n)

/-! ### The single-value obtain loop (`BaseArgument.obtain`, the `while`
loop at src/commands/BaseArgument.ts:152-197) -/

/-- The validate/prompt/re-validate loop of `BaseArgument.obtain`.  One
reply is consumed per iteration; a `none` reply (or an exhausted reply
list) is the `awaitMessages` window elapsing, which cancels with
`'time'`.  A reply equal to `cancel` (case-insensitively) cancels with
`'user'`.  The prompt-limit check `prompts.length >= promptLimit`
precedes the prompt. -/
def obtainLoop (env : ArgEnv V) (promptLimit : Option Nat) :
    List (Option String) → String → ValidRes → Nat → Nat → ObtainResult V
  | [], value, vld, prompts, answers =>
    if isAccepted vld then ⟨some (.one (env.parse value)), none, prompts, answers⟩
    else if limitReached promptLimit prompts then
      ⟨none, some .promptLimit, prompts, answers⟩
    else ⟨none, some .time, prompts + 1, answers⟩
  | reply :: rest, value, vld, prompts, answers =>
    if isAccepted vld then ⟨some (.one (env.parse value)), none, prompts, answers⟩
    else if limitReached promptLimit prompts then
      ⟨none, some .promptLimit, prompts, answers⟩
    else
      match reply with
      | none => ⟨none, some .time, prompts + 1, answers⟩
      | some r =>
        if jsToLower r = "cancel" then
          ⟨none, some .user, prompts + 1, answers + 1⟩
        else
          obtainLoop env promptLimit rest r (env.validate r) (prompts + 1) (answers + 1)

/-- Initial candidate string for the single-value loop (`value`); `undefined`
enters the loop with candidate absent, modelled as `""` (the candidate is
replaced by the first reply before it is ever validated or parsed).  The
collector never passes an array to a non-infinite argument. -/
def RawVal.initStr : RawVal → String
  | .one s => s
  | _ => ""

/-- `let valid = value ? await this.validate(value, msg) : false`: a falsy
`value` (undefined or `""`) is not validated. -/
def RawVal.initValid (env : ArgEnv V) : RawVal → ValidRes
  | .one s => if s.isEmpty then .invalid else env.validate s
  | _ => .invalid

/-! ### The infinite obtain loop (`BaseArgument.obtainInfinite`,
src/commands/BaseArgument.ts:215-313) -/

/-- Outcome of the inner `while (!valid || ...)` loop of `obtainInfinite`:
either a final `ArgumentResult` is returned from inside the loop, or a
valid candidate is found together with the replies not yet consumed. -/
inductive InnerOut (V : Type)
  | done (r : ObtainResult V)
  | found (value : String) (rest : List (Option String)) (prompts answers : Nat)
  deriving DecidableEq

/-- JS truthiness of the running candidate (`if (value)`): `null` and `""`
are falsy. -/
def jsTruthy : Option String → Bool
  | some s => !s.isEmpty
  | none => false

/-- Prompt count after one pass of the inner loop's prompt step: a prompt is
issued when the candidate is truthy, or when nothing has been collected yet
(`results.length === 0`); otherwise none is sent. -/
def promptsAfter (results : List V) (value : Option String) (prompts : Nat) : Nat :=
  if jsTruthy value then prompts + 1
  else if results.isEmpty then prompts + 1
  else prompts

/-- The inner loop of `obtainInfinite`.  `attempts` is incremented first and
compared with `attempts > promptLimit`; a prompt is issued only when the
candidate is truthy or no value has been collected yet (`results.length
=== 0`), see `promptsAfter`.  A reply of `finish` ends the collection
(`'user'`-cancelled when nothing was collected); `cancel` aborts; no reply
cancels with `'time'`. -/
def infInner (env : ArgEnv V) (promptLimit : Option Nat) (results : List V) :
    List (Option String) → Option String → ValidRes → Nat → Nat → Nat → InnerOut V
  | [], value, vld, attempts, prompts, answers =>
    if isAccepted vld then .found (value.getD "") [] prompts answers
    else if exceedsLimit promptLimit (attempts + 1) then
      .done ⟨none, some .promptLimit, prompts, answers⟩
    else .done ⟨none, some .time, promptsAfter results value prompts, answers⟩
  | reply :: rest, value, vld, attempts, prompts, answers =>
    if isAccepted vld then .found (value.getD "") (reply :: rest) prompts answers
    else if exceedsLimit promptLimit (attempts + 1) then
      .done ⟨none, some .promptLimit, prompts, answers⟩
    else
      match reply with
      | none => .done ⟨none, some .time, promptsAfter results value prompts, answers⟩
      | some r =>
        if jsToLower r = "finish" then
          .done (if results.isEmpty then
              ⟨none, some .user, promptsAfter results value prompts, answers + 1⟩
            else ⟨some (.many results), none, promptsAfter results value prompts, answers + 1⟩)
        else if jsToLower r = "cancel" then
          .done ⟨none, some .user, promptsAfter results value prompts, answers + 1⟩
        else
          infInner env promptLimit results rest (some r) (env.validate r)
            (attempts + 1) (promptsAfter results value prompts) (answers + 1)

/-- When the inner loop exits with a valid candidate it has consumed a
prefix of the replies. -/
theorem infInner_found_length_le {env : ArgEnv V} {promptLimit : Option Nat}
    {results : List V} {replies : List (Option String)} {value : Option String}
    {vld : ValidRes} {attempts prompts answers : Nat}
    {v : String} {rest : List (Option String)} {p a : Nat}
    (h : infInner env promptLimit results replies value vld attempts prompts answers
      = .found v rest p a) :
    rest.length ≤ replies.length := by
  induction replies generalizing value vld attempts prompts answers with
  | nil =>
    simp only [infInner] at h
    split at h
    · cases h; exact le_refl _
    · split at h <;> simp_all
  | cons reply rs ih =>
    simp only [infInner] at h
    split at h
    · cases h; exact le_refl _
    · split at h
      · simp_all
      · cases reply with
        | none => simp_all
        | some s =>
          simp only at h
          split at h
          · simp_all
          · split at h
            · simp_all
            · exact le_trans (ih h) (Nat.le_succ _)

/-- If the inner loop starts on an invalid candidate, reaching a valid one
consumes at least one reply. -/
theorem infInner_found_length_lt {env : ArgEnv V} {promptLimit : Option Nat}
    {results : List V} {replies : List (Option String)} {value : Option String}
    {vld : ValidRes} {attempts prompts answers : Nat}
    {v : String} {rest : List (Option String)} {p a : Nat}
    (hv : isAccepted vld = false)
    (h : infInner env promptLimit results replies value vld attempts prompts answers
      = .found v rest p a) :
    rest.length < replies.length := by
  cases replies with
  | nil =>
    simp only [infInner, hv, Bool.false_eq_true, if_false] at h
    split at h <;> simp at h
  | cons reply rs =>
    simp only [infInner, hv, Bool.false_eq_true, if_false] at h
    split at h
    · simp_all
    · cases reply with
      | none => simp_all
      | some s =>
        simp only at h
        split at h
        · simp_all
        · split at h
          · simp_all
          · exact Nat.lt_succ_of_le (infInner_found_length_le h)

/-- `values && values[currentVal] ? values[currentVal] : null`: the current
pre-supplied candidate (an empty string or a missing entry is falsy, so
the candidate is `null`). -/
def currentValue : Option (List String) → Nat → Option String
  | none, _ => none
  | some vs, i =>
    match vs[i]? with
    | some s => if s.isEmpty then none else some s
    | none => none

/-- `let valid = value ? await this.validate(value, msg) : false` for the
outer loop's pre-supplied candidate. -/
def validOf (env : ArgEnv V) : Option String → ValidRes
  | some s => env.validate s
  | none => .invalid

/-- Pre-supplied values not yet consumed (termination measure only). -/
def remainingVals : Option (List String) → Nat → Nat
  | none, _ => 0
  | some vs, i => vs.length - i

/-- The outer `while (true)` loop of `obtainInfinite`: runs the inner loop
on the current candidate, parses the found value into `results`, and —
when a pre-supplied list is present — advances `currentVal`, returning
the accumulated results once the list is exhausted. -/
def infOuter (env : ArgEnv V) (promptLimit : Option Nat) (values : Option (List String))
    (replies : List (Option String)) (currentVal : Nat) (results : List V)
    (prompts answers : Nat) : ObtainResult V :=
  match h : infInner env promptLimit results replies (currentValue values currentVal)
      (validOf env (currentValue values currentVal)) 0 prompts answers with
  | .done r => r
  | .found v rest p a =>
    match values with
    | some vs =>
      if currentVal + 1 = vs.length then
        ⟨some (.many (results ++ [env.parse v])), none, p, a⟩
      else
        infOuter env promptLimit (some vs) rest (currentVal + 1)
          (results ++ [env.parse v]) p a
    | none => infOuter env promptLimit none rest currentVal (results ++ [env.parse v]) p a
  termination_by replies.length + remainingVals values currentVal
  decreasing_by
  · rcases Nat.lt_or_ge currentVal vs.length with hlt | hge
    · have h1 : rest.length ≤ replies.length := infInner_found_length_le h
      simp only [remainingVals]
      omega
    · have hnone : currentValue (some vs) currentVal = none := by
        have hn : vs[currentVal]? = none := List.getElem?_eq_none hge
        simp [currentValue, hn]
      have h2 : rest.length < replies.length := by
        refine infInner_found_length_lt ?_ h
        rw [hnone]
        rfl
      simp only [remainingVals]
      omega
  · have h2 : rest.length < replies.length := by
      refine infInner_found_length_lt ?_ h
      rfl
    simp only [remainingVals]
    omega

/-- Unfolding step for `infOuter` when the inner loop returns a final
result. -/
theorem infOuter_done {env : ArgEnv V} {promptLimit : Option Nat}
    {values : Option (List String)} {replies : List (Option String)}
    {currentVal : Nat} {results : List V} {prompts answers : Nat}
    (r : ObtainResult V)
    (h : infInner env promptLimit results replies (currentValue values currentVal)
      (validOf env (currentValue values currentVal)) 0 prompts answers = .done r) :
    infOuter env promptLimit values replies currentVal results prompts answers = r := by
  rw [infOuter.eq_def]
  split
  next r' heq =>
    rw [h] at heq
    injection heq with h1
    exact h1.symm
  next v' rest' p' a' heq =>
    rw [h] at heq
    exact InnerOut.noConfusion heq

/-- Unfolding step for `infOuter` when the inner loop finds a valid
candidate. -/
theorem infOuter_found {env : ArgEnv V} {promptLimit : Option Nat}
    {values : Option (List String)} {replies : List (Option String)}
    {currentVal : Nat} {results : List V} {prompts answers : Nat}
    (v : String) (rest : List (Option String)) (p a : Nat)
    (h : infInner env promptLimit results replies (currentValue values currentVal)
      (validOf env (currentValue values currentVal)) 0 prompts answers = .found v rest p a) :
    infOuter env promptLimit values replies currentVal results prompts answers =
      match values with
      | some vs =>
        if currentVal + 1 = vs.length then
          ⟨some (.many (results ++ [env.parse v])), none, p, a⟩
        else
          infOuter env promptLimit (some vs) rest (currentVal + 1)
            (results ++ [env.parse v]) p a
      | none =>
        infOuter env promptLimit none rest currentVal (results ++ [env.parse v]) p a := by
  rw [infOuter.eq_def]
  split
  next r' heq =>
    rw [h] at heq
    exact InnerOut.noConfusion heq
  next v' rest' p' a' heq =>
    rw [h] at heq
    injection heq with h1 h2 h3 h4
    subst h1; subst h2; subst h3; subst h4
    rfl

/-- `infOuter` step: the valid value was the last pre-supplied one
(`currentVal++` reaches `values.length`), so the accumulated results are
returned. -/
theorem infOuter_found_some_last {env : ArgEnv V} {promptLimit : Option Nat}
    {vs : List String} {replies : List (Option String)}
    {currentVal : Nat} {results : List V} {prompts answers : Nat}
    (v : String) (rest : List (Option String)) (p a : Nat)
    (hlen : currentVal + 1 = vs.length)
    (h : infInner env promptLimit results replies (currentValue (some vs) currentVal)
      (validOf env (currentValue (some vs) currentVal)) 0 prompts answers = .found v rest p a) :
    infOuter env promptLimit (some vs) replies currentVal results prompts answers
      = ⟨some (.many (results ++ [env.parse v])), none, p, a⟩ := by
  rw [infOuter_found v rest p a h]
  exact if_pos hlen

/-- `infOuter` step: a valid value was obtained and pre-supplied values
remain, so the outer loop advances. -/
theorem infOuter_found_some_step {env : ArgEnv V} {promptLimit : Option Nat}
    {vs : List String} {replies : List (Option String)}
    {currentVal : Nat} {results : List V} {prompts answers : Nat}
    (v : String) (rest : List (Option String)) (p a : Nat)
    (hlen : ¬currentVal + 1 = vs.length)
    (h : infInner env promptLimit results replies (currentValue (some vs) currentVal)
      (validOf env (currentValue (some vs) currentVal)) 0 prompts answers = .found v rest p a) :
    infOuter env promptLimit (some vs) replies currentVal results prompts answers
      = infOuter env promptLimit (some vs) rest (currentVal + 1)
          (results ++ [env.parse v]) p a := by
  rw [infOuter_found v rest p a h]
  exact if_neg hlen

/-- `infOuter` step: with no pre-supplied values the outer loop just keeps
accumulating. -/
theorem infOuter_found_none {env : ArgEnv V} {promptLimit : Option Nat}
    {replies : List (Option String)}
    {currentVal : Nat} {results : List V} {prompts answers : Nat}
    (v : String) (rest : List (Option String)) (p a : Nat)
    (h : infInner env promptLimit results replies (currentValue none currentVal)
      (validOf env (currentValue none currentVal)) 0 prompts answers = .found v rest p a) :
    infOuter env promptLimit none replies currentVal results prompts answers
      = infOuter env promptLimit none rest currentVal (results ++ [env.parse v]) p a := by
  rw [infOuter_found v rest p a h]

/-- `BaseArgument.obtainInfinite`. -/
def obtainInfinite (env : ArgEnv V) (promptLimit : Option Nat)
    (values : Option (List String)) (replies : List (Option String)) : ObtainResult V :=
  infOuter env promptLimit values replies 0 [] 0 0

/-- The `values` parameter of `obtainInfinite` as the outer loop indexes it:
`undefined` stays absent; an array is itself; a non-empty string is indexed
character by character (`values[currentVal]`), and an empty string is falsy
wherever `values` is tested. -/
def RawVal.toInfiniteVals : RawVal → Option (List String)
  | .undef => none
  | .many xs => some xs
  | .one s => if s.isEmpty then none else some (s.data.map Char.toString)

/-- `BaseArgument.obtain` (src/commands/BaseArgument.ts:136-205): a falsy raw
value together with a non-`null` default returns the default at once with
no prompts; an infinite argument delegates to `obtainInfinite`; otherwise
the single-value loop runs. -/
def obtain (env : ArgEnv V) (dflt : Option V) (infinite : Bool) (value : RawVal)
    (promptLimit : Option Nat) (replies : List (Option String)) : ObtainResult V :=
  if value.falsy && dflt.isSome then ⟨dflt.map .one, none, 0, 0⟩
  else if infinite then obtainInfinite env promptLimit value.toInfiniteVals replies
  else obtainLoop env promptLimit replies value.initStr (value.initValid env) 0 0

/-! ### Collector construction (`BaseArgumentCollector.constructor`) -/

/-- A JS field value that may be absent (`undefined`), explicitly `null`, or
a proper value.  `ArgumentInfo.default` is declared `default?: any`, so all
three occur. -/
inductive JsVal (V : Type)
  | undef
  | null
  | val (v : V)
  deriving DecidableEq

/-- The fields of `ArgumentInfo` the collector's validation loop inspects
(the remaining fields are checked by `BaseArgument.validateInfo`, whose
conditions are statically satisfied in this typed model). -/
structure ArgInfo (V : Type) where
  key : String
  default : JsVal V
  infinite : Bool
  deriving DecidableEq

/-- The corresponding fields of a constructed `BaseArgument`:
`this.default = typeof info.default !== 'undefined' ? info.default : null`
(so `null` is the no-default sentinel) and `this.infinite =
Boolean(info.infinite)`. -/
structure Argument (V : Type) where
  key : String
  default : Option V
  infinite : Bool
  deriving DecidableEq

def mkArgument (info : ArgInfo V) : Argument V :=
  { key := info.key
    default := match info.default with
      | .val v => some v
      | _ => none
    infinite := info.infinite }

/-- The `for` loop of `BaseArgumentCollector`'s constructor
(src, `part_001`, lines 32-40): an argument after an infinite one is an
error; `args[i].default !== null` (note: on the *raw info*, where an
absent default is `undefined`, and `undefined !== null` holds) marks
`hasOptional`; otherwise an explicit `null` default with `hasOptional`
already set is an error. -/
def ctorLoop : List (ArgInfo V) → Bool → Bool → Except String (List (Argument V))
  | [], _, _ => .ok []
  | info :: rest, hasInfinite, hasOptional =>
    if hasInfinite then .error "No other argument may come after an infinite argument."
    else
      match info.default with
      | .null =>
        if hasOptional then .error "Required arguments may not come after optional arguments."
        else (ctorLoop rest (mkArgument info).infinite hasOptional).map (mkArgument info :: ·)
      | _ => (ctorLoop rest (mkArgument info).infinite true).map (mkArgument info :: ·)

/-- Constructor-time validation of `BaseArgumentCollector` (both flags start
`false`). -/
def collectorValidateArgs (args : List (ArgInfo V)) : Except String (List (Argument V)) :=
  ctorLoop args false false

/-! ### Collector obtain (`BaseArgumentCollector.obtain`, `part_001`
lines 56-91) -/

/-- `ArgumentCollectorResult`: on success, `values` maps each argument's key
to its obtained values (in argument order). -/
structure CollectorResult (V : Type) where
  values : Option (List (String × Option (Vals V)))
  cancelled : Option CancelReason
  prompts : Nat
  answers : Nat
  deriving DecidableEq

/-- The argument loop of `BaseArgumentCollector.obtain`, with the awaiting
set threaded through: each return path — a cancelled argument, a thrown
error (`catch` + rethrow, modelled by `Except.error`), and full success —
deletes `msg.author.id + msg.channel.id` (the key `k`) from
`dispatcher._awaiting` first.  `argObtain i` abstracts the call
`this.args[i].obtain(msg, ..., promptLimit)`, which may throw (custom
validators/parsers and the transport can); prompts and answers are
concatenated across all results gathered so far. -/
def collectLoop (argObtain : Nat → Except String (ObtainResult V)) :
    List String → Nat → List (String × Option (Vals V)) → Nat → Nat →
      Finset String → String → Finset String × Except String (CollectorResult V)
  | [], _, vals, prompts, answers, awaiting, k =>
    (awaiting.erase k, .ok ⟨some vals.reverse, none, prompts, answers⟩)
  | key :: restKeys, i, vals, prompts, answers, awaiting, k =>
    match argObtain i with
    | .error e => (awaiting.erase k, .error e)
    | .ok r =>
      match r.cancelled with
      | some c => (awaiting.erase k, .ok ⟨none, some c, prompts + r.prompts, answers + r.answers⟩)
      | none =>
        collectLoop argObtain restKeys (i + 1) ((key, r.values) :: vals)
          (prompts + r.prompts) (answers + r.answers) awaiting k

/-- `BaseArgumentCollector.obtain`: first adds the user+channel key to the
awaiting set, then runs the argument loop.  `keys` are the collector's
argument keys in order. -/
def collectorObtain (argObtain : Nat → Except String (ObtainResult V)) (keys : List String)
    (awaiting : Finset String) (k : String) :
    Finset String × Except String (CollectorResult V) :=
  collectLoop argObtain keys 0 [] 0 0 (insert k awaiting) k

/-- The actual per-argument call the collector makes when nothing throws:
`this.args[i].obtain(msg, arg.infinite ? provided.slice(i) : provided[i],
promptLimit)`. -/
def argObtainNoThrow (env : ArgEnv V) (args : List (Argument V)) (provided : List String)
    (promptLimit : Option Nat) (replies : Nat → List (Option String)) (i : Nat) :
    Except String (ObtainResult V) :=
  match args[i]? with
  | some arg =>
    .ok (obtain env arg.default arg.infinite
      (if arg.infinite then RawVal.many (provided.drop i)
      else
        match provided[i]? with
        | some s => RawVal.one s
        | none => RawVal.undef)
      promptLimit (replies i))
  | none => .error "argument index out of range"

/-! ### Integer and float argument types (`part_010`, `IntegerArgumentType`;
src/argumenttypes/FloatType.ts) -/

def decDigit? (c : Char) : Option Nat :=
  if c.isDigit then some (c.toNat - 48) else none

def hexDigit? (c : Char) : Option Nat :=
  if c.isDigit then some (c.toNat - 48)
  else if 'a' ≤ c ∧ c ≤ 'f' then some (c.toNat - 87)
  else if 'A' ≤ c ∧ c ≤ 'F' then some (c.toNat - 55)
  else none

/-- Longest digit prefix under the digit reader `f`. -/
def takeDigits (f : Char → Option Nat) : List Char → List Nat
  | [] => []
  | c :: cs =>
    match f c with
    | some d => d :: takeDigits f cs
    | none => []

def digitsVal (base : Nat) (ds : List Nat) : Nat :=
  ds.foldl (fun acc d => acc * base + d) 0

/-- Unsigned part of `Number.parseInt` with no radix argument: an `0x`/`0X`
prefix selects base 16, otherwise base 10; the longest digit prefix is
taken and no digits at all is `NaN` (`none`). -/
def parseIntDigits (cs : List Char) : Option Nat :=
  match cs with
  | '0' :: 'x' :: rest =>
    let ds := takeDigits hexDigit? rest
    if ds.isEmpty then none else some (digitsVal 16 ds)
  | '0' :: 'X' :: rest =>
    let ds := takeDigits hexDigit? rest
    if ds.isEmpty then none else some (digitsVal 16 ds)
  | _ =>
    let ds := takeDigits decDigit? cs
    if ds.isEmpty then none else some (digitsVal 10 ds)

/-- `Number.parseInt(value)`: leading whitespace skipped, an optional sign,
then `parseIntDigits`; `none` is `NaN`.  Values are exact integers (JS
doubles lose precision above 2^53; that rounding is outside the model). -/
def parseIntJS (s : String) : Option Int :=
  match s.data.dropWhile (fun c => c.isWhitespace) with
  | '-' :: cs => (parseIntDigits cs).map (fun n => -(n : Int))
  | '+' :: cs => (parseIntDigits cs).map (fun n => (n : Int))
  | cs => (parseIntDigits cs).map (fun n => (n : Int))

/-- Digit-prefix splitter for `parseFloatJS`: the leading decimal digits and
the remainder. -/
def splitDec : List Char → List Nat × List Char
  | [] => ([], [])
  | c :: cs =>
    if c.isDigit then
      let p := splitDec cs
      ((c.toNat - 48) :: p.1, p.2)
    else ([], c :: cs)

/-- `Number.parseFloat(value)`: leading whitespace, optional sign, decimal
mantissa (digits, optionally a point and more digits; at least one digit in
total), optional exponent.  The value
`±(intDigits.fracDigits) · 10^exp` is built as one exact rational
`mkRat num den`; doubles are idealised as exact rationals (the `Infinity`
literal and IEEE rounding are outside the model). -/
def parseFloatJS (s : String) : Option ℚ :=
  let cs0 := s.data.dropWhile (fun c => c.isWhitespace)
  let neg : Bool := match cs0 with
    | '-' :: _ => true
    | _ => false
  let cs1 := match cs0 with
    | '-' :: rest => rest
    | '+' :: rest => rest
    | _ => cs0
  let ip := splitDec cs1
  let fp := match ip.2 with
    | '.' :: rest => splitDec rest
    | _ => ([], ip.2)
  if ip.1.isEmpty ∧ fp.1.isEmpty then none
  else
    let e : Int := match fp.2 with
      | 'e' :: rest => parseExp rest
      | 'E' :: rest => parseExp rest
      | _ => 0
    let mantNum : Nat := digitsVal 10 ip.1 * 10 ^ fp.1.length + digitsVal 10 fp.1
    some (mkRat ((if neg then -1 else 1) * (mantNum : Int) * (10 : Int) ^ e.toNat)
      (10 ^ (fp.1.length + (-e).toNat)))
  where
    parseExp (rest : List Char) : Int :=
      let esgn : Int := match rest with
        | '-' :: _ => -1
        | _ => 1
      let rest2 := match rest with
        | '-' :: r => r
        | '+' :: r => r
        | _ => rest
      let eds := splitDec rest2
      if eds.1.isEmpty then 0 else esgn * digitsVal 10 eds.1

/-- The `min`/`max` fields of an argument as the numeric validators read
them (`null`/`undefined` = no bound). -/
structure NumBounds (α : Type) where
  min : Option α
  max : Option α
  deriving DecidableEq

/-- `IntegerArgumentType.validate`: `parseInt`, not-`NaN`, and each bound
checked only when set. -/
def integerValidate (arg : NumBounds Int) (value : String) : Bool :=
  match parseIntJS value with
  | none => false
  | some n =>
    (match arg.min with | none => true | some m => decide (m ≤ n)) &&
    (match arg.max with | none => true | some m => decide (n ≤ m))

/-- `IntegerArgumentType.parse`: `Number.parseInt(value)` (`none` = `NaN`). -/
def integerParse (value : String) : Option Int := parseIntJS value

/-- `FloatArgumentType.validate`. -/
def floatValidate (arg : NumBounds ℚ) (value : String) : Bool :=
  match parseFloatJS value with
  | none => false
  | some x =>
    (match arg.min with | none => true | some m => decide (m ≤ x)) &&
    (match arg.max with | none => true | some m => decide (x ≤ m))

/-- `FloatArgumentType.parse`. -/
def floatParse (value : String) : Option ℚ := parseFloatJS value

/-! ### Command registry search (`CommandRegistry.findCommands`,
src/client/Registry.ts:438-456 and the filters at 484-502) -/

/-- The search-relevant identity of a registered command. -/
structure Cmd where
  name : String
  aliases : List String
  groupID : String
  memberName : String
  deriving DecidableEq

/-- `commandFilterExact`: full equality on name, any alias, or the
`group:member` composite id. -/
def commandFilterExact (search : String) (cmd : Cmd) : Bool :=
  cmd.name == search || cmd.aliases.any (· == search) ||
    (cmd.groupID ++ ":" ++ cmd.memberName) == search

/-- `commandFilterInexact`: substring on name (`includes`), full equality on
the `group:member` composite id (`===`), substring on any alias. -/
def commandFilterInexact (search : String) (cmd : Cmd) : Bool :=
  jsIncludes cmd.name search || (cmd.groupID ++ ":" ++ cmd.memberName) == search ||
    cmd.aliases.any (fun ali => jsIncludes ali search)

/-- The full-match test of `findCommands`'s disambiguation loop:
`command.name === lcSearch || command.aliases.some(ali => ali === lcSearch)`. -/
def fullNameAliasMatch (search : String) (cmd : Cmd) : Bool :=
  cmd.name == search || cmd.aliases.any (· == search)

/-- `CommandRegistry.findCommands` with `message = null`: a falsy search
string returns the whole catalogue; otherwise the search is lowercased and
filtered (exact or inexact); for inexact searches the first filtered
command whose name or alias equals the search in full is returned as a
singleton. -/
def findCommands (commands : List Cmd) (searchString : Option String) (exact : Bool) :
    List Cmd :=
  match searchString with
  | none => commands
  | some s =>
    if s.isEmpty then commands
    else
      let lcSearch := jsToLower s
      let matched := commands.filter
        (fun c => if exact then commandFilterExact lcSearch c else commandFilterInexact lcSearch c)
      if exact then matched
      else
        match matched.find? (fullNameAliasMatch lcSearch) with
        | some c => [c]
        | none => matched

/-! ### Command enable state (`BaseCommand.setEnabledIn` / `isEnabledIn`,
src/commands/BaseCommand.ts:348-371; `GuildExtension.setCommandEnabled` /
`isCommandEnabled` / `isGroupEnabled`, src/extensions/GuildExtension.ts) -/

/-- Enable state of one command: `guarded`, `_globalEnabled`, and this
command's entries in each guild's `_commandsEnabled` map (keyed by guild
id). -/
structure CmdState where
  guarded : Bool
  globalEnabled : Bool
  guildOverride : String → Option Bool

/-- Enable state of the command's group, read by `isEnabledIn` through
`GuildExtension.isGroupEnabled`. -/
structure GroupState where
  guarded : Bool
  globalEnabled : Bool
  guildOverride : String → Option Bool

/-- `GuildExtension.isCommandEnabled`: guarded commands read as enabled;
otherwise the guild override, defaulting to the global flag. -/
def isCommandEnabledState (c : CmdState) (guild : String) : Bool :=
  if c.guarded then true else (c.guildOverride guild).getD c.globalEnabled

/-- `GuildExtension.isGroupEnabled`. -/
def isGroupEnabledState (g : GroupState) (guild : String) : Bool :=
  if g.guarded then true else (g.guildOverride guild).getD g.globalEnabled

/-- `BaseCommand.isEnabledIn`: guarded is always enabled; `null` guild reads
`group._globalEnabled && this._globalEnabled`; otherwise the guild's group
and command states are combined. -/
def isEnabledIn (c : CmdState) (grp : GroupState) (guild : Option String) : Bool :=
  if c.guarded then true
  else
    match guild with
    | none => grp.globalEnabled && c.globalEnabled
    | some g => isGroupEnabledState grp g && isCommandEnabledState c g

/-- `BaseCommand.setEnabledIn`: a guarded command throws
(`'The command is guarded.'`) before touching any state; `null` guild sets
the global flag; a guild delegates to
`GuildExtension.setCommandEnabled`, which stores a per-guild override.
The error, if any, is returned alongside the (then unchanged) state. -/
def setEnabledIn (c : CmdState) (guild : Option String) (enabled : Bool) :
    Option String × CmdState :=
  if c.guarded then (some "The command is guarded.", c)
  else
    match guild with
    | none => (none, { c with globalEnabled := enabled })
    | some g =>
      (none, { c with guildOverride := fun x => if x = g then some enabled else c.guildOverride x })

/-! ### Throttling and dispatch (`BaseCommand.throttle`,
src/commands/BaseCommand.ts:325-341; `BaseMessage.run`,
src/commands/BaseMessage.ts:181-240) -/

/-- A throttle record: window start (ms) and usage count.  The source also
stores the `setTimeout` handle that deletes the record `duration * 1000`
ms after `start`; the claims' scenarios stay inside that window, where the
record persists. -/
structure ThrottleRec where
  start : Nat
  usages : Nat
  deriving DecidableEq

/-- A command's `throttling` option: usage ceiling and window duration in
seconds. -/
structure ThrottlingInfo where
  usages : Nat
  duration : Nat
  deriving DecidableEq

/-- `BaseCommand.throttle(userID)`: `null` when the command has no
throttling or the user is an owner; otherwise the user's existing record,
or a fresh `{start: Date.now(), usages: 0}` stored in `_throttles`. -/
def throttleFn (throttling : Option ThrottlingInfo) (isOwner : Bool)
    (throttles : String → Option ThrottleRec) (userID : String) (now : Nat) :
    Option ThrottleRec × (String → Option ThrottleRec) :=
  match throttling with
  | none => (none, throttles)
  | some _ =>
    if isOwner then (none, throttles)
    else
      match throttles userID with
      | some t => (some t, throttles)
      | none => (some ⟨now, 0⟩, fun u => if u = userID then some ⟨now, 0⟩ else throttles u)

/-- `hasPermission` outcomes: `true`, falsy, or a denial-reason string. -/
inductive PermRes
  | allowed
  | denied
  | deniedMsg (s : String)
  deriving DecidableEq

/-- `!hasPermission || typeof hasPermission === 'string'` negated. -/
def permTruthy : PermRes → Bool
  | .allowed => true
  | .denied => false
  | .deniedMsg _ => false

/-- Outcome of the command's argument collection as `run` sees it
(`some` when the command has an `argsCollector`). -/
inductive CollOutcome
  | success
  | cancelled (c : CancelReason)
  deriving DecidableEq

/-- The dispatch-relevant command configuration for `BaseMessage.run`. -/
structure RunCmd where
  guildOnly : Bool
  throttling : Option ThrottlingInfo

/-- The dispatch-relevant message context for one `run` call. -/
structure RunCtx where
  hasGuild : Bool
  userID : String
  isOwner : Bool
  perm : PermRes
  collector : Option CollOutcome
  now : Nat

/-- Terminal outcome of `BaseMessage.run` (the command body's own result is
out of scope); `blockedThrottling` carries the reported remaining
cooldown in seconds. -/
inductive RunOutcome
  | blockedGuildOnly
  | blockedPermission
  | blockedThrottling (remaining : ℚ)
  | cancelledRun (c : CancelReason)
  | invoked
  deriving DecidableEq

/-- `throttle.usages++` just before the command body runs (the record object
is shared with the `_throttles` map). -/
def bumpUsage (m : String → Option ThrottleRec) (userID : String) :
    String → Option ThrottleRec :=
  fun u => if u = userID then (m userID).map (fun t => ⟨t.start, t.usages + 1⟩) else m u

/-- The tail of `run` after the throttling check: a cancelled collection
returns before the usage bump; otherwise `if (throttle) throttle.usages++`
and the body is invoked. -/
def runAfterChecks (collector : Option CollOutcome) (hasThrottle : Bool) (userID : String)
    (m : String → Option ThrottleRec) : RunOutcome × (String → Option ThrottleRec) :=
  match collector with
  | some (.cancelled c) => (.cancelledRun c, m)
  | _ => (.invoked, if hasThrottle then bumpUsage m userID else m)

/-- `BaseMessage.run`, from the guild-only check to the invocation of the
command body: guild-only and permission blocks happen before
`this.command.throttle(...)` is called; a throttled user is blocked with
`(throttle.start + throttling.duration * 1000 - Date.now()) / 1000`
seconds remaining; the usage counter is bumped only on the invocation
path. -/
def messageRun (cmd : RunCmd) (ctx : RunCtx) (m : String → Option ThrottleRec) :
    RunOutcome × (String → Option ThrottleRec) :=
  if cmd.guildOnly && !ctx.hasGuild then (.blockedGuildOnly, m)
  else if !(permTruthy ctx.perm) then (.blockedPermission, m)
  else
    let tm := throttleFn cmd.throttling ctx.isOwner m ctx.userID ctx.now
    match tm.1, cmd.throttling with
    | some t, some info =>
      if info.usages < t.usages + 1 then
        (.blockedThrottling (((t.start : ℚ) + info.duration * 1000 - ctx.now) / 1000), tm.2)
      else runAfterChecks ctx.collector true ctx.userID tm.2
    | some _, none =>
      -- unreachable: `throttle` is non-null only when throttling is configured
      runAfterChecks ctx.collector true ctx.userID tm.2
    | none, _ => runAfterChecks ctx.collector false ctx.userID tm.2

/-! ### Supporting lemmas -/

/-- With `promptLimit = 0`, the inner infinite loop never prompts: the first
`attempts > promptLimit` check fires before any prompt. -/
theorem infInner_limit0 {env : ArgEnv V} {results : List V} {replies : List (Option String)}
    {value : Option String} {vld : ValidRes} {attempts prompts answers : Nat} :
    infInner env (some 0) results replies value vld attempts prompts answers =
      if isAccepted vld then .found (value.getD "") replies prompts answers
      else .done ⟨none, some .promptLimit, prompts, answers⟩ := by
  cases replies <;> simp [infInner, exceedsLimit]

/-- With `promptLimit = 0`, the outer infinite loop never adds a prompt. -/
theorem infOuter_limit0_prompts (env : ArgEnv V) :
    ∀ (values : Option (List String)) (replies : List (Option String)) (currentVal : Nat)
      (results : List V) (prompts answers : Nat),
      (infOuter env (some 0) values replies currentVal results prompts answers).prompts
        = prompts := by
  intro values replies currentVal results prompts answers
  induction values, replies, currentVal, results, prompts, answers
      using infOuter.induct env (some 0) with
  | case1 values replies currentVal results prompts answers r h =>
    rw [infOuter_done r h]
    rw [infInner_limit0] at h
    split at h
    · exact InnerOut.noConfusion h
    · injection h with h1
      rw [← h1]
  | case2 replies currentVal results prompts answers v rest p a vs h1 hlen h2 =>
    rw [infOuter_found_some_last v rest p a hlen h1]
    rw [infInner_limit0] at h1
    split at h1
    · injection h1 with e1 e2 e3 e4
      exact e3.symm
    · exact InnerOut.noConfusion h1
  | case3 replies currentVal results prompts answers v rest p a vs h1 hlen h2 ih =>
    rw [infOuter_found_some_step v rest p a hlen h1]
    rw [infInner_limit0] at h1
    split at h1
    · injection h1 with e1 e2 e3 e4
      rw [ih, ← e3]
    · exact InnerOut.noConfusion h1
  | case4 replies currentVal results prompts answers v rest p a h1 h2 ih =>
    rw [infOuter_found_none v rest p a h1]
    rw [infInner_limit0] at h1
    split at h1
    · injection h1 with e1 e2 e3 e4
      rw [ih, ← e3]
    · exact InnerOut.noConfusion h1

/-- With `promptLimit = 0`, the single-value loop never prompts. -/
theorem obtainLoop_limit0_prompts (env : ArgEnv V) (replies : List (Option String))
    (value : String) (vld : ValidRes) (answers : Nat) :
    (obtainLoop env (some 0) replies value vld 0 answers).prompts = 0 := by
  cases replies <;> cases vld <;> simp [obtainLoop, limitReached, isAccepted]

/-! ### C1 -/

/-- C1: for every argument descriptor with a default value and no supplied
raw value, `obtain` returns a successful result whose value is the default,
with zero prompts issued and zero answers recorded. -/
theorem c1_default_returned_without_prompting {V : Type} (env : ArgEnv V) (d : V)
    (infinite : Bool) (promptLimit : Option Nat) (replies : List (Option String)) :
    obtain env (some d) infinite RawVal.undef promptLimit replies
      = ⟨some (.one d), none, 0, 0⟩ := by
  simp [obtain, RawVal.falsy]

/-! ### C2 -/

/-- Validator and parser used by the C2 counterexample run: accepts exactly
the strings `gone` and `gtwo`, parses a string to itself. -/
def c2Env : ArgEnv String :=
  ⟨fun s => if s == "gone" || s == "gtwo" then .valid else .invalid, fun s => s⟩

/-- C2 counterexample: in the infinite variant with the finite
`promptLimit = 1`, pre-supplied values `["bad", "bad2"]` and user replies
`"gone"`, `"gtwo"`, the run reaches the invalid candidate `"bad2"` when one
prompt — the whole limit — has already been issued, yet it is *not*
cancelled with `promptLimit`: it prompts a second time and succeeds with 2
prompts.  Under the claim, prompts could never exceed a finite
`promptLimit` without a prompt-limit cancellation. -/
theorem c2_counterexample_infinite_limit :
    obtainInfinite c2Env (some 1) (some ["bad", "bad2"]) [some "gone", some "gtwo"]
        = ⟨some (.many ["gone", "gtwo"]), none, 2, 2⟩ ∧
      (obtainInfinite c2Env (some 1) (some ["bad", "bad2"])
          [some "gone", some "gtwo"]).cancelled ≠ some CancelReason.promptLimit ∧
      1 < (obtainInfinite c2Env (some 1) (some ["bad", "bad2"])
          [some "gone", some "gtwo"]).prompts := by
  have h : obtainInfinite c2Env (some 1) (some ["bad", "bad2"]) [some "gone", some "gtwo"]
      = ⟨some (.many ["gone", "gtwo"]), none, 2, 2⟩ := by
    rw [obtainInfinite,
      infOuter_found_some_step "gone" [some "gtwo"] 1 1 (by decide) (by decide),
      infOuter_found_some_last "gtwo" [] 2 2 (by decide) (by decide)]
    rfl
  exact ⟨h, by rw [h]; decide, by rw [h]; decide⟩

/-- C2 amended: (a) in the single-value loop the claim holds as stated —
an invalid candidate with `promptLimit` prompts already issued is cancelled
with `promptLimit` on the spot; (b) in the infinite variant the limit
instead applies to a per-value attempt counter (reset for every value):
the loop cancels when the attempts for the current candidate exceed
`promptLimit`, so the total prompt count can exceed `promptLimit`; (c) with
`promptLimit = 0`, no prompt is ever sent by `obtain` in any variant. -/
theorem c2_prompt_limit_amended {V : Type} (env : ArgEnv V) :
    (∀ (l : Nat) (replies : List (Option String)) (value : String) (vld : ValidRes)
        (prompts answers : Nat), isAccepted vld = false → l ≤ prompts →
        obtainLoop env (some l) replies value vld prompts answers
          = ⟨none, some .promptLimit, prompts, answers⟩) ∧
    (∀ (l : Nat) (results : List V) (replies : List (Option String))
        (value : Option String) (vld : ValidRes) (attempts prompts answers : Nat),
        isAccepted vld = false → l < attempts + 1 →
        infInner env (some l) results replies value vld attempts prompts answers
          = .done ⟨none, some .promptLimit, prompts, answers⟩) ∧
    (∀ (dflt : Option V) (infinite : Bool) (value : RawVal)
        (replies : List (Option String)),
        (obtain env dflt infinite value (some 0) replies).prompts = 0) := by
  refine ⟨?_, ?_, ?_⟩
  · intro l replies value vld prompts answers hv hl
    cases replies <;> simp [obtainLoop, hv, limitReached, hl]
  · intro l results replies value vld attempts prompts answers hv hl
    cases replies <;> simp [infInner, hv, exceedsLimit, hl]
  · intro dflt infinite value replies
    unfold obtain
    split
    · rfl
    · split
      · rw [obtainInfinite]
        exact infOuter_limit0_prompts env _ _ 0 [] 0 0
      · exact obtainLoop_limit0_prompts env _ _ _ 0

/-- C2 witness: the amended statement applied at concrete inputs — the
single-value loop cancels at once when the limit 1 is already used up; the
inner infinite loop cancels when attempts exceed the limit; `obtain` with
`promptLimit = 0` issues no prompt. -/
theorem c2_prompt_limit_amended_witness :
    isAccepted ValidRes.invalid = false ∧ (1 : Nat) ≤ 1 ∧
      obtainLoop c2Env (some 1) [some "gone"] "bad" .invalid 1 0
        = ⟨none, some .promptLimit, 1, 0⟩ ∧
      (1 : Nat) < 1 + 1 ∧
      infInner c2Env (some 1) ["x"] [some "gone"] (some "bad") .invalid 1 2 2
        = .done ⟨none, some .promptLimit, 2, 2⟩ ∧
      (obtain c2Env none false (.one "bad") (some 0) [some "gone"]).prompts = 0 :=
  ⟨by decide, by decide,
    (c2_prompt_limit_amended c2Env).1 1 [some "gone"] "bad" .invalid 1 0 (by decide) (by decide),
    by decide,
    (c2_prompt_limit_amended c2Env).2.1 1 ["x"] [some "gone"] (some "bad") .invalid 1 2 2
      (by decide) (by decide),
    (c2_prompt_limit_amended c2Env).2.2 none false (.one "bad") [some "gone"]⟩

/-! ### C3 -/

/-- Whether an `Except` is a success (`throw` = `.error`). -/
def exceptIsOk : Except ε α → Bool
  | .ok _ => true
  | .error _ => false

theorem exceptIsOk_map (f : α → β) (e : Except ε α) :
    exceptIsOk (e.map f) = exceptIsOk e := by
  cases e <;> rfl

/-- C3 (code bug in the collector's default-ordering check): the loop tests
`args[i].default !== null` on the *raw descriptor*, where a descriptor
without a default has `default === undefined`, and `undefined !== null`.
So (first conjunct) a non-defaulted descriptor after a defaulted one is
accepted — construction succeeds where the claim and the code's own error
message demand a throw — and (second conjunct) two descriptors both
without default values are rejected with
`'Required arguments may not come after optional arguments.'` when the
second spells its missing default as an explicit `null`. -/
theorem c3_default_ordering_check_eval :
    collectorValidateArgs [⟨"a", JsVal.val "x", false⟩, ⟨"b", JsVal.undef, false⟩]
        = .ok [⟨"a", some "x", false⟩, ⟨"b", none, false⟩] ∧
      collectorValidateArgs ([⟨"a", JsVal.undef, false⟩, ⟨"b", JsVal.null, false⟩]
          : List (ArgInfo String))
        = .error "Required arguments may not come after optional arguments." := by
  constructor <;> rfl

/-! ### C4 -/

/-- Acceptance half of the infinite-last check, generalized over the
`hasOptional` flag: a list whose members before the last are not infinite
and whose defaults are never an explicit `null` passes the loop. -/
theorem ctorLoop_ok_of_no_null {V : Type} :
    ∀ (pre : List (ArgInfo V)) (last : ArgInfo V) (ho : Bool),
      (∀ x ∈ pre, x.infinite = false) →
      (∀ x ∈ pre ++ [last], x.default ≠ JsVal.null) →
      exceptIsOk (ctorLoop (pre ++ [last]) false ho) = true := by
  intro pre
  induction pre with
  | nil =>
    intro last ho hinf hnull
    have h := hnull last (by simp)
    cases hd : last.default
    · simp [ctorLoop, hd, exceptIsOk, Except.map]
    · exact absurd hd h
    · simp [ctorLoop, hd, exceptIsOk, Except.map]
  | cons x xs ih =>
    intro last ho hinf hnull
    have hx : x.infinite = false := hinf x (by simp)
    have hxn : x.default ≠ JsVal.null := hnull x (by simp)
    have hmk : (mkArgument x).infinite = false := hx
    have hinf2 : ∀ y ∈ xs, y.infinite = false :=
      fun y hy => hinf y (List.mem_cons_of_mem x hy)
    have hnull2 : ∀ y ∈ xs ++ [last], y.default ≠ JsVal.null :=
      fun y hy => hnull y (by rw [List.cons_append]; exact List.mem_cons_of_mem x hy)
    cases hd : x.default
    · simp only [List.cons_append, ctorLoop, hd, Bool.false_eq_true, if_false]
      rw [exceptIsOk_map, hmk]
      exact ih last true hinf2 hnull2
    · exact absurd hd hxn
    · simp only [List.cons_append, ctorLoop, hd, Bool.false_eq_true, if_false]
      rw [exceptIsOk_map, hmk]
      exact ih last true hinf2 hnull2

/-- C4: (first conjunct) whenever any descriptor follows one flagged
infinite, construction fails; (second conjunct) a list whose only infinite
descriptor is the last one is accepted (over descriptors whose defaults are
not an explicit `null`, the encoding every command of this repository uses
— see C3 for what an explicit `null` default does to the other check). -/
theorem c4_infinite_must_be_last {V : Type} :
    (∀ (pre : List (ArgInfo V)) (a b : ArgInfo V) (post : List (ArgInfo V)),
      a.infinite = true →
      exceptIsOk (collectorValidateArgs (pre ++ a :: b :: post)) = false) ∧
    (∀ (pre : List (ArgInfo V)) (last : ArgInfo V),
      (∀ x ∈ pre, x.infinite = false) →
      (∀ x ∈ pre ++ [last], x.default ≠ JsVal.null) →
      exceptIsOk (collectorValidateArgs (pre ++ [last])) = true) := by
  constructor
  · intro pre a b post ha
    rw [collectorValidateArgs]
    suffices hgen : ∀ (pre : List (ArgInfo V)) (hi ho : Bool),
        exceptIsOk (ctorLoop (pre ++ a :: b :: post) hi ho) = false by
      exact hgen pre false false
    intro pre
    induction pre with
    | nil =>
      intro hi ho
      cases hi
      · cases hd : a.default
        · simp [ctorLoop, hd, mkArgument, ha, exceptIsOk, Except.map]
        · cases ho
          · simp [ctorLoop, hd, mkArgument, ha, exceptIsOk, Except.map]
          · simp [ctorLoop, hd, exceptIsOk]
        · simp [ctorLoop, hd, mkArgument, ha, exceptIsOk, Except.map]
      · simp [ctorLoop, exceptIsOk]
    | cons x xs ih =>
      intro hi ho
      cases hi
      · cases hd : x.default
        · simp only [List.cons_append, ctorLoop, hd, Bool.false_eq_true, if_false]
          rw [exceptIsOk_map]
          exact ih (mkArgument x).infinite true
        · cases ho
          · simp only [List.cons_append, ctorLoop, hd, Bool.false_eq_true, if_false]
            rw [exceptIsOk_map]
            exact ih (mkArgument x).infinite false
          · simp [ctorLoop, hd, exceptIsOk]
        · simp only [List.cons_append, ctorLoop, hd, Bool.false_eq_true, if_false]
          rw [exceptIsOk_map]
          exact ih (mkArgument x).infinite true
      · simp [ctorLoop, exceptIsOk]
  · intro pre last hinf hnull
    rw [collectorValidateArgs]
    exact ctorLoop_ok_of_no_null pre last false hinf hnull

/-- C4 witness: `[a(infinite), b]` is rejected; `[k, rest(infinite)]` — the
only infinite descriptor last — is accepted. -/
theorem c4_infinite_must_be_last_witness :
    (⟨"a", JsVal.undef, true⟩ : ArgInfo String).infinite = true ∧
      exceptIsOk (collectorValidateArgs
        (([] : List (ArgInfo String)) ++ ⟨"a", JsVal.undef, true⟩ ::
          ⟨"b", JsVal.undef, false⟩ :: [])) = false ∧
      (∀ x ∈ [(⟨"k", JsVal.undef, false⟩ : ArgInfo String)], x.infinite = false) ∧
      (∀ x ∈ [(⟨"k", JsVal.undef, false⟩ : ArgInfo String)] ++
          [(⟨"rest", JsVal.undef, true⟩ : ArgInfo String)], x.default ≠ JsVal.null) ∧
      exceptIsOk (collectorValidateArgs
        ([(⟨"k", JsVal.undef, false⟩ : ArgInfo String)] ++
          [⟨"rest", JsVal.undef, true⟩])) = true :=
  ⟨rfl,
    c4_infinite_must_be_last.1 [] ⟨"a", JsVal.undef, true⟩ ⟨"b", JsVal.undef, false⟩ [] rfl,
    by decide, by decide,
    c4_infinite_must_be_last.2 [⟨"k", JsVal.undef, false⟩] ⟨"rest", JsVal.undef, true⟩
      (by decide) (by decide)⟩

/-! ### C5 -/

/-- C5: round-trip between validation and parsing for the bounded numeric
types: a string the integer (resp. float) validator accepts parses — via
the same `Number.parseInt` / `Number.parseFloat` — to a number lying
within the configured bounds, each bound checked only when set. -/
theorem c5_validate_parse_bounds :
    (∀ (arg : NumBounds Int) (value : String), integerValidate arg value = true →
      ∃ n : Int, integerParse value = some n ∧
        (∀ m, arg.min = some m → m ≤ n) ∧ (∀ m, arg.max = some m → n ≤ m)) ∧
    (∀ (arg : NumBounds ℚ) (value : String), floatValidate arg value = true →
      ∃ x : ℚ, floatParse value = some x ∧
        (∀ m, arg.min = some m → m ≤ x) ∧ (∀ m, arg.max = some m → x ≤ m)) := by
  constructor
  · intro arg value h
    unfold integerValidate at h
    unfold integerParse
    cases hp : parseIntJS value with
    | none => rw [hp] at h; exact absurd h (by simp)
    | some n =>
      rw [hp, Bool.and_eq_true] at h
      refine ⟨n, rfl, ?_, ?_⟩
      · intro m hm
        rw [hm] at h
        exact of_decide_eq_true h.1
      · intro m hm
        rw [hm] at h
        exact of_decide_eq_true h.2
  · intro arg value h
    unfold floatValidate at h
    unfold floatParse
    cases hp : parseFloatJS value with
    | none => rw [hp] at h; exact absurd h (by simp)
    | some x =>
      rw [hp, Bool.and_eq_true] at h
      refine ⟨x, rfl, ?_, ?_⟩
      · intro m hm
        rw [hm] at h
        exact of_decide_eq_true h.1
      · intro m hm
        rw [hm] at h
        exact of_decide_eq_true h.2

/-- C5 witness: the integer argument `{min: 1, max: 10}` accepts `"5"` and
its parse lies in the bounds; the float argument `{min: 1, max: 10}`
accepts `"5.5"` likewise. -/
theorem c5_validate_parse_bounds_witness :
    integerValidate ⟨some 1, some 10⟩ "5" = true ∧
      (∃ n : Int, integerParse "5" = some n ∧
        (∀ m, (⟨some 1, some 10⟩ : NumBounds Int).min = some m → m ≤ n) ∧
        (∀ m, (⟨some 1, some 10⟩ : NumBounds Int).max = some m → n ≤ m)) ∧
      floatValidate ⟨some 1, some 10⟩ "5.5" = true ∧
      (∃ x : ℚ, floatParse "5.5" = some x ∧
        (∀ m, (⟨some 1, some 10⟩ : NumBounds ℚ).min = some m → m ≤ x) ∧
        (∀ m, (⟨some 1, some 10⟩ : NumBounds ℚ).max = some m → x ≤ m)) :=
  ⟨by decide, c5_validate_parse_bounds.1 ⟨some 1, some 10⟩ "5" (by decide),
    by decide, c5_validate_parse_bounds.2 ⟨some 1, some 10⟩ "5.5" (by decide)⟩

/-! ### C6 -/

/-- C6: for every run of the collector's obtain — over any behaviour of the
per-argument obtain calls, including cancellations and thrown errors — the
"awaiting input" mark added for the user+channel key on entry is gone when
obtain terminates: the awaiting set is restored to not contain the key. -/
theorem c6_awaiting_mark_cleared {V : Type}
    (argObtain : Nat → Except String (ObtainResult V)) (keys : List String)
    (awaiting : Finset String) (k : String) (hk : k ∉ awaiting) :
    (collectorObtain argObtain keys awaiting k).1 = awaiting ∧
      k ∉ (collectorObtain argObtain keys awaiting k).1 := by
  have main : ∀ (ks : List String) (i : Nat) (vals : List (String × Option (Vals V)))
      (p a : Nat) (A : Finset String),
      (collectLoop argObtain ks i vals p a A k).1 = A.erase k := by
    intro ks
    induction ks with
    | nil => intro i vals p a A; rfl
    | cons key rest ih =>
      intro i vals p a A
      cases hob : argObtain i with
      | error e => simp [collectLoop, hob]
      | ok r =>
        cases hc : r.cancelled with
        | some c => simp [collectLoop, hob, hc]
        | none => simp [collectLoop, hob, hc, ih]
  constructor
  · rw [collectorObtain, main, Finset.erase_insert hk]
  · rw [collectorObtain, main]
    exact Finset.not_mem_erase k _

/-- C6 witness: a one-argument collector (integer-style validator, value
pre-supplied) run for the key `"u1ch1"` with an empty awaiting set: the
set is restored and does not contain the key. -/
theorem c6_awaiting_mark_cleared_witness :
    "u1ch1" ∉ (∅ : Finset String) ∧
      (collectorObtain
          (argObtainNoThrow ⟨fun s => if (parseIntJS s).isSome then .valid else .invalid,
            fun s => (parseIntJS s).getD 0⟩ [⟨"n", none, false⟩] ["5"] none (fun _ => []))
          ["n"] ∅ "u1ch1").1 = ∅ ∧
      "u1ch1" ∉ (collectorObtain
          (argObtainNoThrow ⟨fun s => if (parseIntJS s).isSome then .valid else .invalid,
            fun s => (parseIntJS s).getD 0⟩ [⟨"n", none, false⟩] ["5"] none (fun _ => []))
          ["n"] ∅ "u1ch1").1 :=
  ⟨by decide,
    (c6_awaiting_mark_cleared
      (argObtainNoThrow ⟨fun s => if (parseIntJS s).isSome then .valid else .invalid,
        fun s => (parseIntJS s).getD 0⟩ [⟨"n", none, false⟩] ["5"] none (fun _ => []))
      ["n"] ∅ "u1ch1" (by decide)).1,
    (c6_awaiting_mark_cleared
      (argObtainNoThrow ⟨fun s => if (parseIntJS s).isSome then .valid else .invalid,
        fun s => (parseIntJS s).getD 0⟩ [⟨"n", none, false⟩] ["5"] none (fun _ => []))
      ["n"] ∅ "u1ch1" (by decide)).2⟩

/-! ### C7 -/

/-- The C7 scenario's command: throttling `usages = 2`, `duration = 10` s,
not guild-only. -/
def throttleCmd : RunCmd := ⟨false, some ⟨2, 10⟩⟩

/-- The C7 scenario's dispatch context: a non-owner with permission granted
and a successful argument collection, at time `now` (ms). -/
def throttleCtx (userID : String) (now : Nat) : RunCtx :=
  ⟨true, userID, false, .allowed, some .success, now⟩

/-- One `run` by a user with no throttle record yet: the record is created
with `start = now`, the ceiling is not hit, and the usage counter is
bumped on invocation. -/
theorem messageRun_throttle_first (u : String) (now : Nat)
    (m : String → Option ThrottleRec) (hm : m u = none) :
    messageRun throttleCmd (throttleCtx u now) m
      = (.invoked, bumpUsage (fun x => if x = u then some ⟨now, 0⟩ else m x) u) := by
  simp [messageRun, throttleCmd, throttleCtx, permTruthy, throttleFn, hm, runAfterChecks]

/-- One `run` by a user whose record is below the ceiling. -/
theorem messageRun_throttle_under (u : String) (now s k : Nat)
    (m : String → Option ThrottleRec) (hm : m u = some ⟨s, k⟩) (hk : k + 1 ≤ 2) :
    messageRun throttleCmd (throttleCtx u now) m = (.invoked, bumpUsage m u) := by
  have : ¬(2 < k + 1) := by omega
  simp [messageRun, throttleCmd, throttleCtx, permTruthy, throttleFn, hm,
    runAfterChecks, this]

/-- One `run` by a user whose record has reached the ceiling: blocked before
the body, with remaining cooldown `(start + duration·1000 − now) / 1000`
seconds, and the throttle map untouched. -/
theorem messageRun_throttle_blocked (u : String) (now s k : Nat)
    (m : String → Option ThrottleRec) (hm : m u = some ⟨s, k⟩) (hk : 2 < k + 1) :
    messageRun throttleCmd (throttleCtx u now) m
      = (.blockedThrottling (((s : ℚ) + 10 * 1000 - now) / 1000), m) := by
  simp [messageRun, throttleCmd, throttleCtx, permTruthy, throttleFn, hm, hk]

/-- C7: with throttling `usages = 2`, `duration = 10` s, three invocations
by the same non-owner user inside the 10-second window: the first two
invoke the body (usage count 1, then 2); the third is blocked before the
body with reported remaining cooldown `(windowStart + duration − now)`
(in seconds, = `(t0 + 10·1000 − t2) / 1000`), which is positive. -/
theorem c7_throttle_three_invocations (u : String) (t0 t1 t2 : Nat)
    (m0 : String → Option ThrottleRec)
    (h01 : t0 ≤ t1) (h12 : t1 ≤ t2) (hwin : t2 < t0 + 10000) (hm0 : m0 u = none) :
    ∃ m1 m2 m3,
      messageRun throttleCmd (throttleCtx u t0) m0 = (.invoked, m1) ∧
      m1 u = some ⟨t0, 1⟩ ∧
      messageRun throttleCmd (throttleCtx u t1) m1 = (.invoked, m2) ∧
      m2 u = some ⟨t0, 2⟩ ∧
      messageRun throttleCmd (throttleCtx u t2) m2
        = (.blockedThrottling (((t0 : ℚ) + 10 * 1000 - t2) / 1000), m3) ∧
      0 < ((t0 : ℚ) + 10 * 1000 - t2) / 1000 := by
  have e1 := messageRun_throttle_first u t0 m0 hm0
  have hm1 : bumpUsage (fun x => if x = u then some ⟨t0, 0⟩ else m0 x) u u
      = some ⟨t0, 1⟩ := by
    simp [bumpUsage]
  have e2 := messageRun_throttle_under u t1 t0 1
    (bumpUsage (fun x => if x = u then some ⟨t0, 0⟩ else m0 x) u) hm1 (by omega)
  have hm2 : bumpUsage (bumpUsage (fun x => if x = u then some ⟨t0, 0⟩ else m0 x) u) u u
      = some ⟨t0, 2⟩ := by
    simp [bumpUsage]
  have e3 := messageRun_throttle_blocked u t2 t0 2
    (bumpUsage (bumpUsage (fun x => if x = u then some ⟨t0, 0⟩ else m0 x) u) u) hm2
    (by omega)
  refine ⟨_, _, _, e1, hm1, e2, hm2, e3, ?_⟩
  have hnum : (0 : ℚ) < (t0 : ℚ) + 10 * 1000 - t2 := by
    have : (t2 : ℚ) < (t0 : ℚ) + 10000 := by exact_mod_cast hwin
    linarith
  positivity

/-- C7 witness: the scenario at `t0 = 0`, `t1 = 1`, `t2 = 2` for user
`"u"` starting from an empty throttle map. -/
theorem c7_throttle_three_invocations_witness :
    (0 : Nat) ≤ 1 ∧ (1 : Nat) ≤ 2 ∧ (2 : Nat) < 0 + 10000 ∧
      (fun _ : String => (none : Option ThrottleRec)) "u" = none ∧
      (∃ m1 m2 m3,
        messageRun throttleCmd (throttleCtx "u" 0) (fun _ => none) = (.invoked, m1) ∧
        m1 "u" = some ⟨0, 1⟩ ∧
        messageRun throttleCmd (throttleCtx "u" 1) m1 = (.invoked, m2) ∧
        m2 "u" = some ⟨0, 2⟩ ∧
        messageRun throttleCmd (throttleCtx "u" 2) m2
          = (.blockedThrottling (((0 : ℚ) + 10 * 1000 - 2) / 1000), m3) ∧
        0 < ((0 : ℚ) + 10 * 1000 - (2 : Nat)) / 1000) :=
  ⟨by decide, by decide, by decide, rfl,
    c7_throttle_three_invocations "u" 0 1 2 (fun _ => none)
      (by decide) (by decide) (by decide) rfl⟩

/-! ### C8 -/

/-- C8: for every guarded command, `isEnabledIn` answers `true` for every
guild argument (including the global `null` one), and `setEnabledIn`
errors unconditionally for every guild argument and enabled value, with
the returned state — global flag and per-guild override map — unchanged. -/
theorem c8_guarded_enable_state (c : CmdState) (grp : GroupState)
    (hg : c.guarded = true) :
    (∀ guild : Option String, isEnabledIn c grp guild = true) ∧
      (∀ (guild : Option String) (enabled : Bool),
        setEnabledIn c guild enabled = (some "The command is guarded.", c)) := by
  constructor
  · intro guild
    simp [isEnabledIn, hg]
  · intro guild enabled
    simp [setEnabledIn, hg]

/-- A guarded command whose global flag is `false` and whose override map is
empty: only the guard makes it read as enabled. -/
def guardedCmdState : CmdState := ⟨true, false, fun _ => none⟩

def plainGroupState : GroupState := ⟨false, false, fun _ => none⟩

/-- C8 witness: the guarded command at both the global scope and a guild. -/
theorem c8_guarded_enable_state_witness :
    guardedCmdState.guarded = true ∧
      isEnabledIn guardedCmdState plainGroupState none = true ∧
      isEnabledIn guardedCmdState plainGroupState (some "g1") = true ∧
      setEnabledIn guardedCmdState none true
        = (some "The command is guarded.", guardedCmdState) ∧
      setEnabledIn guardedCmdState (some "g1") false
        = (some "The command is guarded.", guardedCmdState) :=
  ⟨rfl,
    (c8_guarded_enable_state guardedCmdState plainGroupState rfl).1 none,
    (c8_guarded_enable_state guardedCmdState plainGroupState rfl).1 (some "g1"),
    (c8_guarded_enable_state guardedCmdState plainGroupState rfl).2 none true,
    (c8_guarded_enable_state guardedCmdState plainGroupState rfl).2 (some "g1") false⟩

/-! ### C9 -/

/-- A command with no alias whose composite id `grp:mem` strictly contains
the search string `grp:me`. -/
def compositeCmd : Cmd := ⟨"zzz", [], "grp", "mem"⟩

/-- C9 counterexample: the claim says inexact search matches *by substring*
on the `group:member` composite id; but `commandFilterInexact` compares the
composite id with `===`, so the search `"grp:me"` — a proper substring of
`compositeCmd`'s composite id `"grp:mem"` — matches no command and
`findCommands` returns `[]` instead of `[compositeCmd]`. -/
theorem c9_counterexample_composite_substring :
    findCommands [compositeCmd] (some "grp:me") false = [] ∧
      jsIncludes (compositeCmd.groupID ++ ":" ++ compositeCmd.memberName)
        (jsToLower "grp:me") = true := by
  constructor <;> decide

theorem listIsPrefixOf_self (l : List Char) : l.isPrefixOf l = true := by
  induction l with
  | nil => rfl
  | cons c cs ih => simp [List.isPrefixOf, ih]

theorem jsIncludes_self (s : String) : jsIncludes s s = true := by
  unfold jsIncludes
  cases hd : s.data with
  | nil => simp [listInfix, hd, List.isEmpty]
  | cons c cs => simp [listInfix, ← hd, listIsPrefixOf_self]

/-- A full name/alias match passes the inexact filter (equality implies
substring). -/
theorem inexact_of_fullMatch (search : String) (c : Cmd)
    (h : fullNameAliasMatch search c = true) : commandFilterInexact search c = true := by
  unfold fullNameAliasMatch at h
  unfold commandFilterInexact
  rw [Bool.or_eq_true] at h
  rcases h with hn | ha
  · rw [eq_of_beq hn]
    simp [jsIncludes_self]
  · rw [List.any_eq_true] at ha
    obtain ⟨ali, hmem, hali⟩ := ha
    have : c.aliases.any (fun a => jsIncludes a search) = true := by
      rw [List.any_eq_true]
      exact ⟨ali, hmem, by rw [eq_of_beq hali]; exact jsIncludes_self search⟩
    simp [this]

/-- `find?` over a filtered list, when exactly one element of the base list
satisfies the sought predicate and the filter keeps everything the
predicate accepts, returns that element. -/
theorem find?_filter_of_unique {α : Type} (p q : α → Bool)
    (hpq : ∀ x, p x = true → q x = true) :
    ∀ (l : List α) (c : α), l.filter p = [c] → (l.filter q).find? p = some c := by
  intro l
  induction l with
  | nil => intro c h; simp at h
  | cons x xs ih =>
    intro c h
    by_cases hp : p x = true
    · rw [List.filter_cons_of_pos hp] at h
      injection h with h1 h2
      subst h1
      rw [List.filter_cons_of_pos (hpq x hp)]
      exact List.find?_cons_of_pos _ hp
    · have hp' : p x = false := by simpa using hp
      rw [List.filter_cons_of_neg (by simp [hp'])] at h
      by_cases hq : q x = true
      · rw [List.filter_cons_of_pos hq]
        rw [List.find?_cons_of_neg _ (by simp [hp'])]
        exact ih c h
      · rw [List.filter_cons_of_neg (by simpa using hq)]
        exact ih c h

/-- The two commands of the spec's scenario: `foo` with alias `f`, and
`bar`. -/
def fooCmd : Cmd := ⟨"foo", ["f"], "util", "foo"⟩

def barCmd : Cmd := ⟨"bar", [], "util", "bar"⟩

/-- C9 amended: inexact `findCommands` matches by substring on name and
aliases but by full equality on the `group:member` composite id.  With
that correction: (a) the scenario holds — with `foo` (alias `f`) and
`bar` registered, searching `"f"` inexactly returns exactly `[foo]`;
(b) when no command's name or alias equals the lowercased search in full,
all commands passing the (corrected) inexact filter are returned; (c) when
exactly one command's name or alias equals the lowercased search in full,
that singleton is returned. -/
theorem c9_find_commands_amended (commands : List Cmd) (s : String)
    (hs : s.isEmpty = false) :
    findCommands [fooCmd, barCmd] (some "f") false = [fooCmd] ∧
      ((∀ c ∈ commands, fullNameAliasMatch (jsToLower s) c = false) →
        findCommands commands (some s) false
          = commands.filter (commandFilterInexact (jsToLower s))) ∧
      (∀ c : Cmd, commands.filter (fullNameAliasMatch (jsToLower s)) = [c] →
        findCommands commands (some s) false = [c]) := by
  refine ⟨by decide, ?_, ?_⟩
  · intro hnone
    have hfind : (commands.filter (commandFilterInexact (jsToLower s))).find?
        (fullNameAliasMatch (jsToLower s)) = none := by
      rw [List.find?_eq_none]
      intro x hx
      simp [hnone x (List.mem_of_mem_filter hx)]
    simp [findCommands, hs, hfind]
  · intro c hc
    have hfind := find?_filter_of_unique (fullNameAliasMatch (jsToLower s))
      (commandFilterInexact (jsToLower s)) (inexact_of_fullMatch (jsToLower s))
      commands c hc
    simp [findCommands, hs, hfind]

/-- C9 witness: part (b) at a registry whose one command matches only by
substring; part (c) at the scenario registry, where `foo` is the unique
full match for `"f"`. -/
theorem c9_find_commands_amended_witness :
    ("zz" : String).isEmpty = false ∧
      (∀ c ∈ [compositeCmd], fullNameAliasMatch (jsToLower "zz") c = false) ∧
      findCommands [compositeCmd] (some "zz") false
        = [compositeCmd].filter (commandFilterInexact (jsToLower "zz")) ∧
      [fooCmd, barCmd].filter (fullNameAliasMatch (jsToLower "f")) = [fooCmd] ∧
      findCommands [fooCmd, barCmd] (some "f") false = [fooCmd] :=
  ⟨rfl, by decide,
    (c9_find_commands_amended [compositeCmd] "zz" rfl).2.1 (by decide),
    by decide,
    (c9_find_commands_amended [fooCmd, barCmd] "f" rfl).2.2 fooCmd (by decide)⟩

/-! ### C10 -/

/-- The usage counter a user's record shows (no record reads as 0, the count
a fresh record carries). -/
def usagesAt (m : String → Option ThrottleRec) (u : String) : Nat :=
  match m u with
  | some t => t.usages
  | none => 0

/-- C10: the per-user usage counter is bumped only immediately before the
command body runs.  (1) A dispatch that does not invoke the body — blocked
on guild-only, permission or throttling, or with a cancelled collection —
leaves every user's usage counter unchanged.  (2) Other users' records are
never touched.  (3) An invocation by a throttled non-owner bumps exactly
that user's counter by one.  (4) A first attempt by a non-owner that
passes the guild-only and permission checks still creates the throttle
record, starting its window at `now` — with the counter at 1 when the
body ran and still 0 when the dispatch was blocked or cancelled. -/
theorem c10_usage_counter_frame (cmd : RunCmd) (ctx : RunCtx)
    (m : String → Option ThrottleRec) :
    ((messageRun cmd ctx m).1 ≠ .invoked →
      ∀ u, usagesAt (messageRun cmd ctx m).2 u = usagesAt m u) ∧
    (∀ u, u ≠ ctx.userID → (messageRun cmd ctx m).2 u = m u) ∧
    ((messageRun cmd ctx m).1 = .invoked → cmd.throttling.isSome = true →
      ctx.isOwner = false →
      usagesAt (messageRun cmd ctx m).2 ctx.userID = usagesAt m ctx.userID + 1) ∧
    ((cmd.guildOnly && !ctx.hasGuild) = false → permTruthy ctx.perm = true →
      cmd.throttling.isSome = true → ctx.isOwner = false → m ctx.userID = none →
      ∃ t, (messageRun cmd ctx m).2 ctx.userID = some t ∧ t.start = ctx.now ∧
        ((messageRun cmd ctx m).1 = .invoked → t.usages = 1) ∧
        ((messageRun cmd ctx m).1 ≠ .invoked → t.usages = 0)) := by
  cases hgo : (cmd.guildOnly && !ctx.hasGuild) with
  | true =>
    have hrun : messageRun cmd ctx m = (.blockedGuildOnly, m) := by
      simp [messageRun, hgo]
    rw [hrun]
    exact ⟨fun _ u => rfl, fun u _ => rfl, fun hinv => absurd hinv (by simp),
      fun hfalse => absurd hfalse (by decide)⟩
  | false =>
    cases hperm : permTruthy ctx.perm with
    | false =>
      have hrun : messageRun cmd ctx m = (.blockedPermission, m) := by
        simp [messageRun, hgo, hperm]
      rw [hrun]
      exact ⟨fun _ u => rfl, fun u _ => rfl, fun hinv => absurd hinv (by simp),
        fun _ hp => absurd hp (by decide)⟩
    | true =>
      cases hth : cmd.throttling with
      | none =>
        have hrun : messageRun cmd ctx m
            = (match ctx.collector with
              | some (.cancelled c) => (.cancelledRun c, m)
              | _ => (.invoked, m)) := by
          simp [messageRun, hgo, hperm, hth, throttleFn, runAfterChecks]
        refine ⟨?_, ?_, ?_, ?_⟩
        · intro _ u
          rw [hrun]
          cases hcol : ctx.collector with
          | none => rfl
          | some o => cases o <;> simp [hcol]
        · intro u _
          rw [hrun]
          cases hcol : ctx.collector with
          | none => rfl
          | some o => cases o <;> simp [hcol]
        · intro _ hsome
          exact absurd hsome (by decide)
        · intro _ _ hsome
          exact absurd hsome (by decide)
      | some info =>
        cases how : ctx.isOwner with
        | true =>
          have hrun : messageRun cmd ctx m
              = (match ctx.collector with
                | some (.cancelled c) => (.cancelledRun c, m)
                | _ => (.invoked, m)) := by
            simp [messageRun, hgo, hperm, hth, how, throttleFn, runAfterChecks]
          refine ⟨?_, ?_, ?_, ?_⟩
          · intro _ u
            rw [hrun]
            cases hcol : ctx.collector with
            | none => rfl
            | some o => cases o <;> simp [hcol]
          · intro u _
            rw [hrun]
            cases hcol : ctx.collector with
            | none => rfl
            | some o => cases o <;> simp [hcol]
          · intro _ _ hown
            exact absurd hown (by decide)
          · intro _ _ _ hown
            exact absurd hown (by decide)
        | false =>
          cases hmu : m ctx.userID with
          | some t =>
            have htm : throttleFn (some info) ctx.isOwner m ctx.userID ctx.now
                = (some t, m) := by
              simp [throttleFn, how, hmu]
            cases hceil : decide (info.usages < t.usages + 1) with
            | true =>
              have hlt : info.usages < t.usages + 1 := of_decide_eq_true hceil
              have hrun : messageRun cmd ctx m
                  = (.blockedThrottling
                      (((t.start : ℚ) + info.duration * 1000 - ctx.now) / 1000), m) := by
                simp [messageRun, hgo, hperm, htm, hth, hlt]
              rw [hrun]
              refine ⟨fun _ u => rfl, fun u _ => rfl,
                fun hinv => absurd hinv (by simp), ?_⟩
              intro _ _ _ _ hnone
              exact absurd hnone (by simp)
            | false =>
              have hlt : ¬info.usages < t.usages + 1 := by
                simpa using of_decide_eq_false hceil
              have hrun : messageRun cmd ctx m
                  = (match ctx.collector with
                    | some (.cancelled c) => (.cancelledRun c, m)
                    | _ => (.invoked, bumpUsage m ctx.userID)) := by
                simp [messageRun, hgo, hperm, htm, hth, hlt, runAfterChecks]
              refine ⟨?_, ?_, ?_, ?_⟩
              · intro hninv u
                rw [hrun] at hninv ⊢
                cases hcol : ctx.collector with
                | none => rw [hcol] at hninv; exact absurd rfl hninv
                | some o =>
                  cases o with
                  | success => rw [hcol] at hninv; exact absurd rfl hninv
                  | cancelled c => simp [hcol]
              · intro u hu
                rw [hrun]
                cases hcol : ctx.collector with
                | none => simp [bumpUsage, hu]
                | some o => cases o <;> simp [hcol, bumpUsage, hu]
              · intro hinv _ _
                rw [hrun] at hinv ⊢
                cases hcol : ctx.collector with
                | none => simp [usagesAt, bumpUsage, hmu]
                | some o =>
                  cases o with
                  | success => simp [hcol, usagesAt, bumpUsage, hmu]
                  | cancelled c => rw [hcol] at hinv; exact absurd hinv (by simp)
              · intro _ _ _ _ hnone
                exact absurd hnone (by simp)
          | none =>
            have htm : throttleFn (some info) ctx.isOwner m ctx.userID ctx.now
                = (some ⟨ctx.now, 0⟩,
                  fun x => if x = ctx.userID then some ⟨ctx.now, 0⟩ else m x) := by
              simp [throttleFn, how, hmu]
            cases hceil : decide (info.usages < 0 + 1) with
            | true =>
              have hlt : info.usages < 0 + 1 := of_decide_eq_true hceil
              have hrun : messageRun cmd ctx m
                  = (.blockedThrottling
                      (((ctx.now : ℚ) + info.duration * 1000 - ctx.now) / 1000),
                    fun x => if x = ctx.userID then some ⟨ctx.now, 0⟩ else m x) := by
                simp [messageRun, hgo, hperm, htm, hth, hlt]
              rw [hrun]
              refine ⟨?_, ?_, fun hinv => absurd hinv (by simp), ?_⟩
              · intro _ u
                by_cases hu : u = ctx.userID
                · subst hu
                  simp [usagesAt, hmu]
                · simp [usagesAt, hu]
              · intro u hu
                simp [hu]
              · intro _ _ _ _ _
                exact ⟨⟨ctx.now, 0⟩, by simp, rfl, fun hinv => absurd hinv (by simp),
                  fun _ => rfl⟩
            | false =>
              have hlt : ¬info.usages < 0 + 1 := by
                simpa using of_decide_eq_false hceil
              have hrun : messageRun cmd ctx m
                  = (match ctx.collector with
                    | some (.cancelled c) => (.cancelledRun c,
                      fun x => if x = ctx.userID then some ⟨ctx.now, 0⟩ else m x)
                    | _ => (.invoked,
                      bumpUsage (fun x => if x = ctx.userID then some ⟨ctx.now, 0⟩ else m x)
                        ctx.userID)) := by
                simp [messageRun, hgo, hperm, htm, hth, hlt, runAfterChecks]
              refine ⟨?_, ?_, ?_, ?_⟩
              · intro hninv u
                rw [hrun] at hninv ⊢
                cases hcol : ctx.collector with
                | none => rw [hcol] at hninv; exact absurd rfl hninv
                | some o =>
                  cases o with
                  | success => rw [hcol] at hninv; exact absurd rfl hninv
                  | cancelled c =>
                    simp only [hcol]
                    by_cases hu : u = ctx.userID
                    · subst hu
                      simp [usagesAt, hmu]
                    · simp [usagesAt, hu]
              · intro u hu
                rw [hrun]
                cases hcol : ctx.collector with
                | none => simp [bumpUsage, hu]
                | some o => cases o <;> simp [hcol, bumpUsage, hu]
              · intro hinv _ _
                rw [hrun] at hinv ⊢
                cases hcol : ctx.collector with
                | none => simp [usagesAt, bumpUsage, hmu]
                | some o =>
                  cases o with
                  | success => simp [hcol, usagesAt, bumpUsage, hmu]
                  | cancelled c => rw [hcol] at hinv; exact absurd hinv (by simp)
              · intro _ _ _ _ _
                rw [hrun]
                cases hcol : ctx.collector with
                | none =>
                  exact ⟨⟨ctx.now, 1⟩, by simp [bumpUsage], rfl, fun _ => rfl,
                    fun hninv => absurd rfl hninv⟩
                | some o =>
                  cases o with
                  | success =>
                    exact ⟨⟨ctx.now, 1⟩, by simp [hcol, bumpUsage], rfl, fun _ => rfl,
                      fun hninv => absurd rfl hninv⟩
                  | cancelled c =>
                    exact ⟨⟨ctx.now, 0⟩, by simp [hcol], rfl,
                      fun hinv => absurd hinv (by simp [hcol]), fun _ => rfl⟩

/-- C10 witness: a command with throttling ceiling 0 (every non-owner use is
throttle-blocked): the first dispatch is blocked, yet the record is created
with `start = now` and usage count 0; and for the C7 command a successful
dispatch bumps the counter to 1. -/
theorem c10_usage_counter_frame_witness :
    (messageRun ⟨false, some ⟨0, 10⟩⟩ (throttleCtx "u" 5) (fun _ => none)).1
        ≠ .invoked ∧
      usagesAt (messageRun ⟨false, some ⟨0, 10⟩⟩ (throttleCtx "u" 5) (fun _ => none)).2 "u"
        = usagesAt (fun _ => none) "u" ∧
      ((⟨false, some ⟨0, 10⟩⟩ : RunCmd).guildOnly && !(throttleCtx "u" 5).hasGuild) = false ∧
      (∃ t, (messageRun ⟨false, some ⟨0, 10⟩⟩ (throttleCtx "u" 5) (fun _ => none)).2 "u"
          = some t ∧ t.start = 5 ∧
        ((messageRun ⟨false, some ⟨0, 10⟩⟩ (throttleCtx "u" 5) (fun _ => none)).1 = .invoked →
          t.usages = 1) ∧
        ((messageRun ⟨false, some ⟨0, 10⟩⟩ (throttleCtx "u" 5) (fun _ => none)).1 ≠ .invoked →
          t.usages = 0)) ∧
      ((messageRun throttleCmd (throttleCtx "u" 5) (fun _ => none)).1 = .invoked →
        usagesAt (messageRun throttleCmd (throttleCtx "u" 5) (fun _ => none)).2 "u"
          = usagesAt (fun _ => none) "u" + 1) :=
  ⟨by simp [messageRun, throttleCtx, permTruthy, throttleFn, runAfterChecks],
    (c10_usage_counter_frame ⟨false, some ⟨0, 10⟩⟩ (throttleCtx "u" 5) (fun _ => none)).1
      (by simp [messageRun, throttleCtx, permTruthy, throttleFn, runAfterChecks]) "u",
    rfl,
    (c10_usage_counter_frame ⟨false, some ⟨0, 10⟩⟩ (throttleCtx "u" 5) (fun _ => none)).2.2.2
      rfl rfl rfl rfl rfl,
    fun hinv =>
      (c10_usage_counter_frame throttleCmd (throttleCtx "u" 5) (fun _ => none)).2.2.1
        hinv rfl rfl⟩

end Untitled
